import Mathlib

/-!
# Verification of the face-sound-trainer match engine

A shallow embedding, in Lean 4, of the core logic of the
`face-sound-trainer` web application:

* the match engine (`findBestMatch` and the per-detection best-match scan
  inside `detectFaces`, from `src/hooks/useFaceDetection.ts`),
* the per-identity cooldown used by `detectFaces` (same file),
* the global exclusivity gate of `src/hooks/useSimpleFaceDetection.ts`,
* the enrollment capture sequencer of
  `src/components/PersonRegistration.tsx` (`handleCapture`),
* the gallery update `updatePersonSound` of `src/hooks/usePersonStorage.ts`.

Numeric modelling: the source computes with IEEE floating point; the
embedding uses exact rationals (`ℚ`).  The library function
`faceapi.euclideanDistance` returns `Math.sqrt` of the sum of squared
coordinate differences; since square roots are not rational-valued, the
embedding tracks the *squared* distance everywhere.  `√` is strictly
monotone on nonnegative reals, so every comparison the source performs on
distances (`distance < 0.6`, `distance < minDistance`,
`distance < bestMatch.distance`) coincides with the same comparison on the
squared values against the squared threshold (`0.36 = 0.6²`).  Statements
about the actual L2 distance `d` or the actual threshold `t` are phrased
through the characterisation `0 ≤ d ∧ d ^ 2 = s` of `d = √s`, which never
mentions `Real.sqrt` and keeps every definition computable.

Timestamps (`Date.now()`) are modelled as integers (epoch milliseconds).
JavaScript exceptions thrown inside the match computation are modelled
with `Except String`; the detection loop's `try/catch` corresponds to
inspecting that `Except` value.
-/

namespace FaceSoundTrainer

/-- `RegisteredPerson` from `src/types/face.ts`: a registered identity with
its enrollment descriptors (each a fixed-length embedding vector), media
references and creation timestamp.  `Float32Array` embeddings become
`List ℚ`; optional fields become `Option`; `Date` becomes epoch
milliseconds (`ℤ`). -/
structure RegisteredPerson where
  id : String
  name : String
  descriptors : List (List ℚ)
  soundUrl : String
  soundData : Option String := none
  videoData : Option String := none
  imageDataUrl : String := ""
  createdAt : ℤ := 0
deriving Repr, DecidableEq

/-- The bounding box carried by a detection (`DetectionResult.box` in
`src/types/face.ts`). -/
structure Box where
  x : ℚ := 0
  y : ℚ := 0
  width : ℚ := 0
  height : ℚ := 0
deriving Repr, DecidableEq

/-- `DetectionResult` from `src/types/face.ts`, as built at
`useFaceDetection.ts:179-184`.  The source stores
`confidence = bestMatch ? (1 - bestMatch.distance) * 100 : 0`; because the
distance is `√matchedDistSq` (irrational in general), the embedding keeps
the squared distance of the best match (`none` when unmatched) and renders
the confidence value relationally via `confidenceSpec`. -/
structure DetectionResult where
  personId : Option String
  personName : Option String
  matchedDistSq : Option ℚ
  box : Box
deriving Repr, DecidableEq

/-- The source's `confidence` field, relationally: when unmatched the code
sets `0`; when matched at squared distance `s` it sets `(1 - d) * 100`
where `d = √s` is the unique nonnegative real with `d ^ 2 = s`. -/
def confidenceSpec (matchedDistSq : Option ℚ) (c : ℝ) : Prop :=
  match matchedDistSq with
  | none => c = 0
  | some s => ∃ d : ℝ, 0 ≤ d ∧ d ^ 2 = (s : ℝ) ∧ c = (1 - d) * 100

/-- The error message thrown by `faceapi.euclideanDistance` (face-api.js)
when the two vectors have different lengths. -/
def lengthMismatchError : String :=
  "euclideanDistance: arr1.length !== arr2.length"

/-- Sum of squared coordinate differences of two equal-length vectors:
the square of the value `faceapi.euclideanDistance` returns. -/
def sqDist (a b : List ℚ) : ℚ :=
  ((a.zip b).map fun p => (p.1 - p.2) ^ 2).sum

/-- `faceapi.euclideanDistance` (the external face-api.js dependency used
at `useFaceDetection.ts:129`), squared: it throws on a length mismatch and
otherwise returns `Math.sqrt` of the sum of squared differences, so its
square is `sqDist`. -/
def euclideanDistanceSq (a b : List ℚ) : Except String ℚ :=
  if a.length = b.length then .ok (sqDist a b) else .error lengthMismatchError

/-- `a < m` where `m : Option ℚ` encodes a possibly-infinite distance
(`none = Infinity`), matching the JavaScript comparison
`distance < minDistance` with `minDistance` initialised to `Infinity`. -/
def ltInf (a : ℚ) (m : Option ℚ) : Bool :=
  match m with
  | none => true
  | some q => decide (a < q)

/-- The loop of `findBestMatch` (`useFaceDetection.ts:127-134`): fold the
running minimum (squared) distance over the person's stored descriptors,
propagating the library's length-mismatch exception. -/
def findBestMatchAux (e : List ℚ) (ds : List (List ℚ)) (minD : Option ℚ) :
    Except String (Option ℚ) :=
  match ds with
  | [] => .ok minD
  | d :: rest =>
    match euclideanDistanceSq e d with
    | .error msg => .error msg
    | .ok s => findBestMatchAux e rest (if ltInf s minD then some s else minD)

/-- `findBestMatch` (`useFaceDetection.ts:121-135`): the minimum (squared)
distance from the detected embedding `e` to the person's stored
descriptors; `Infinity` (`none`) when the descriptor list is empty. -/
def findBestMatch (e : List ℚ) (p : RegisteredPerson) :
    Except String (Option ℚ) :=
  findBestMatchAux e p.descriptors none

/-- The JavaScript guard `!bestMatch || distance < bestMatch.distance`
from `useFaceDetection.ts:174`. -/
def beats (s : ℚ) (best : Option (RegisteredPerson × ℚ)) : Bool :=
  match best with
  | none => true
  | some b => decide (s < b.2)

/-- The inner gallery scan of `detectFaces` (`useFaceDetection.ts:172-177`):
walk the registered people, keeping the first person attaining the
strictly smallest (squared) distance below the (squared) threshold.
`dist = none` models `Infinity`, for which `distance < 0.6` is false. -/
def scanPeopleAux (e : List ℚ) (tSq : ℚ) (ps : List RegisteredPerson)
    (best : Option (RegisteredPerson × ℚ)) :
    Except String (Option (RegisteredPerson × ℚ)) :=
  match ps with
  | [] => .ok best
  | p :: rest =>
    match findBestMatch e p with
    | .error msg => .error msg
    | .ok dist =>
      let best' :=
        match dist with
        | none => best
        | some s => if decide (s < tSq) && beats s best then some (p, s) else best
      scanPeopleAux e tSq rest best'

/-- The complete match operation for one detected embedding: the scan of
`useFaceDetection.ts:170-177` starting from `bestMatch = null`.  The
source hard-codes the threshold `0.6`; the embedding takes the squared
threshold `tSq` as a parameter and instantiates it with
`matchThresholdSq = 0.36`. -/
def matchDetect (e : List ℚ) (tSq : ℚ) (people : List RegisteredPerson) :
    Except String (Option (RegisteredPerson × ℚ)) :=
  scanPeopleAux e tSq people none

/-- The squared form of the hard-coded acceptance threshold `0.6` of
`useFaceDetection.ts:174`. -/
def matchThresholdSq : ℚ := 36 / 100

/-! ### Pure (exception-free) mirror of the match computation

When every stored descriptor has the detected embedding's length, the
`Except`-valued computation never throws; the following pure functions
compute the same values and carry the inductive proofs. -/

/-- Pure mirror of `findBestMatchAux` (no length check). -/
def minDistSqAux (e : List ℚ) (ds : List (List ℚ)) (minD : Option ℚ) :
    Option ℚ :=
  match ds with
  | [] => minD
  | d :: rest =>
    minDistSqAux e rest (if ltInf (sqDist e d) minD then some (sqDist e d) else minD)

/-- Pure mirror of `findBestMatch`: the person's minimum squared distance,
`none` meaning `Infinity`. -/
def minDistSq (e : List ℚ) (p : RegisteredPerson) : Option ℚ :=
  minDistSqAux e p.descriptors none

/-- Pure mirror of `scanPeopleAux`. -/
def scanPureAux (e : List ℚ) (tSq : ℚ) (ps : List RegisteredPerson)
    (best : Option (RegisteredPerson × ℚ)) : Option (RegisteredPerson × ℚ) :=
  match ps with
  | [] => best
  | p :: rest =>
    let best' :=
      match minDistSq e p with
      | none => best
      | some s => if decide (s < tSq) && beats s best then some (p, s) else best
    scanPureAux e tSq rest best'

/-- Pure mirror of `matchDetect`. -/
def matchPure (e : List ℚ) (tSq : ℚ) (people : List RegisteredPerson) :
    Option (RegisteredPerson × ℚ) :=
  scanPureAux e tSq people none

/-- Well-formedness of a person w.r.t. a detected embedding: every stored
descriptor has the embedding's length (the spec's fixed length `K`). -/
def wfPerson (e : List ℚ) (p : RegisteredPerson) : Prop :=
  ∀ d ∈ p.descriptors, d.length = e.length

/-- Well-formedness of a gallery w.r.t. a detected embedding. -/
def wfGallery (e : List ℚ) (ps : List RegisteredPerson) : Prop :=
  ∀ p ∈ ps, wfPerson e p

instance (e : List ℚ) (p : RegisteredPerson) : Decidable (wfPerson e p) := by
  unfold wfPerson; infer_instance

instance (e : List ℚ) (ps : List RegisteredPerson) : Decidable (wfGallery e ps) := by
  unfold wfGallery; infer_instance

/-! ### Building the detection result and the cooldown step

`detectFaces` (`useFaceDetection.ts:168-198`) builds a `DetectionResult`
from the best match, then runs the per-identity cooldown and, on trigger,
plays the person's sound and records the trigger time. -/

/-- The result construction of `useFaceDetection.ts:179-184`.  JavaScript's
`bestMatch?.person.id || null` maps an *empty-string* id (a falsy value)
to `null`, and likewise for the name; the embedding reproduces that. -/
def mkResult (best : Option (RegisteredPerson × ℚ)) (box : Box) :
    DetectionResult :=
  { personId :=
      match best with
      | some (p, _) => if p.id = "" then none else some p.id
      | none => none
    personName :=
      match best with
      | some (p, _) => if p.name = "" then none else some p.name
      | none => none
    matchedDistSq := (best.map fun b => b.2)
    box := box }

/-- The per-identity cooldown map `lastPlayedRef` (`useFaceDetection.ts:37`):
identity id → timestamp of the last trigger (`none` when never
triggered). -/
def CooldownMap : Type := String → Option ℤ

/-- `lastPlayedRef.current.get(id) || 0` (`useFaceDetection.ts:189`):
the stored timestamp, defaulting to `0` when absent (a stored `0` is falsy
in JavaScript but `|| 0` maps it to `0` all the same). -/
def getLast (m : CooldownMap) (id : String) : ℤ :=
  (m id).getD 0

/-- The cooldown body of `useFaceDetection.ts:188-193`: when more than
30000 ms have passed since the identity's last trigger, play the sound
(the returned `Bool`), and record `now` for that identity
(`lastPlayedRef.current.set`); otherwise leave the map unchanged. -/
def cooldownStep (m : CooldownMap) (pid : String) (now : ℤ) :
    CooldownMap × Bool :=
  if now - getLast m pid > 30000 then
    ((fun s => if s = pid then some now else m s), true)
  else
    (m, false)

/-- One detection's pass through the loop body of
`useFaceDetection.ts:168-198`: compute the best match (threshold `0.6`,
squared `0.36`), build the `DetectionResult`, and when matched run the
cooldown step for the matched identity.  The returned `Bool` is whether
`playPersonSound` was invoked this tick (it no-ops when the person has no
audio source, but the timestamp is recorded regardless, exactly as in the
source). -/
def detectTick (people : List RegisteredPerson) (e : List ℚ) (box : Box)
    (last : CooldownMap) (now : ℤ) :
    Except String (DetectionResult × (CooldownMap × Bool)) :=
  match matchDetect e matchThresholdSq people with
  | .error msg => .error msg
  | .ok best =>
    .ok (mkResult best box,
      match best with
      | some (p, _) => cooldownStep last p.id now
      | none => (last, false))

/-! ### The global exclusivity gate (`useSimpleFaceDetection.ts`) -/

/-- The mutable refs of `useSimpleFaceDetection.ts:37-38`:
`lastPlayedRef` (one global timestamp, initially `0`) and `isPlayingRef`
(initially `false`). -/
structure SimpleState where
  lastPlayed : ℤ := 0
  isPlaying : Bool := false
deriving Repr, DecidableEq

/-- One tick of `detectFaces` in `useSimpleFaceDetection.ts:105-130`:
if a face was detected, media is configured and nothing is currently
playing, and more than the 30000 ms cooldown has passed since the last
global trigger, record `now`, set the playing flag and fire `onPlayMedia`
(the returned `Bool`). -/
def simpleTick (s : SimpleState) (faceDetected hasMedia : Bool) (now : ℤ) :
    SimpleState × Bool :=
  if faceDetected && hasMedia && !s.isPlaying then
    if now - s.lastPlayed > 30000 then
      ({ lastPlayed := now, isPlaying := true }, true)
    else (s, false)
  else (s, false)

/-- `resetPlayingState` (`useSimpleFaceDetection.ts:135-137`), invoked by
the playback collaborator when the media finishes or errors. -/
def resetPlayingState (s : SimpleState) : SimpleState :=
  { s with isPlaying := false }

/-- A run of consecutive detection ticks (no `resetPlayingState` in
between): each input is `(faceDetected, hasMedia, now)`.  Returns the
final state and whether any tick fired `onPlayMedia`. -/
def runTicks (s : SimpleState) (ins : List (Bool × Bool × ℤ)) :
    SimpleState × Bool :=
  match ins with
  | [] => (s, false)
  | (f, hm, now) :: rest =>
    let step := simpleTick s f hm now
    let next := runTicks step.1 rest
    (next.1, step.2 || next.2)

/-! ### The enrollment capture sequencer (`PersonRegistration.tsx`) -/

/-- `REQUIRED_CAPTURES` (`PersonRegistration.tsx:15`). -/
def REQUIRED_CAPTURES : ℕ := 5

/-- The `step` state of `PersonRegistration.tsx:25`
(`'name' | 'capture' | 'media'`); `media` is the post-capture state the
session reaches exactly when enough samples were accumulated. -/
inductive EnrollStep
  | name
  | capture
  | media
deriving Repr, DecidableEq

/-- The capture-session state of `PersonRegistration.tsx:25-28`: the
current step and the accumulated descriptor and snapshot lists. -/
structure EnrollState where
  step : EnrollStep
  capturedDescriptors : List (List ℚ)
  capturedImages : List String
deriving Repr, DecidableEq

/-- The session state on entering the capture step: no samples yet. -/
def initEnroll : EnrollState :=
  { step := .capture, capturedDescriptors := [], capturedImages := [] }

/-- `handleCapture` (`PersonRegistration.tsx:146-181`): one capture
attempt.  `descriptor`/`image` are what `captureDescriptor`/
`captureSnapshot` returned (`none` models `null`, e.g. no face found).
Only when both are present are they appended; when the new count reaches
`REQUIRED_CAPTURES` the session moves to the `media` step (the source also
stops the camera there).  The `isCapturing`/`autoCapturing` guard of line
147 is a reentrancy lock that is set and cleared around each attempt; in
this sequential event model every attempt runs with the lock free. -/
def handleCapture (s : EnrollState) (descriptor : Option (List ℚ))
    (image : Option String) : EnrollState :=
  match descriptor, image with
  | some d, some img =>
    let nd := s.capturedDescriptors ++ [d]
    let ni := s.capturedImages ++ [img]
    { step := if REQUIRED_CAPTURES ≤ nd.length then .media else s.step
      capturedDescriptors := nd
      capturedImages := ni }
  | _, _ => s

/-- A sequence of capture attempts, applied in order. -/
def runCaptures (s : EnrollState) (evs : List (Option (List ℚ) × Option String)) :
    EnrollState :=
  match evs with
  | [] => s
  | (d, img) :: rest => runCaptures (handleCapture s d img) rest

/-- An attempt is accepted when both the descriptor and the snapshot were
obtained (`if (descriptor && image)` at `PersonRegistration.tsx:155`). -/
def acceptedCount (evs : List (Option (List ℚ) × Option String)) : ℕ :=
  (evs.filter fun ev => ev.1.isSome && ev.2.isSome).length

/-- Cancelling the registration dialog (`onClose`): the component's
session state is discarded with the component and the gallery is never
touched — `onRegister` (→ `addPerson`) inside `handleRegister`
(`PersonRegistration.tsx:237-253`) is the only channel from the session to
the gallery, and it is not invoked on close.  On the gallery, cancellation
is therefore the identity. -/
def cancelEnrollment (g : List RegisteredPerson) : List RegisteredPerson := g

/-! ### Gallery update (`usePersonStorage.ts`) -/

/-- `updatePersonSound` (`usePersonStorage.ts:58-66`):
`prev.map(p => p.id === id ? { ...p, soundUrl, soundData } : p)`.
The optional `soundData` parameter overwrites the stored field even when
absent (`undefined`), exactly as the object spread does. -/
def updatePersonSound (people : List RegisteredPerson) (id : String)
    (soundUrl : String) (soundData : Option String) : List RegisteredPerson :=
  people.map fun p =>
    if p.id = id then { p with soundUrl := soundUrl, soundData := soundData } else p

/-! ### Concrete sample data

Small concrete identities and cooldown maps used to instantiate the
theorems below on closed inputs. -/

/-- A concrete registered identity ("Ana") with a single stored
embedding. -/
def anaWith (v : List ℚ) : RegisteredPerson :=
  { id := "ana-1", name := "Ana", descriptors := [v],
    soundUrl := "sounds/ana.mp3", imageDataUrl := "data:ana" }

/-- A concrete registered identity ("Bob") with a single stored
embedding. -/
def bobWith (v : List ℚ) : RegisteredPerson :=
  { id := "bob-2", name := "Bob", descriptors := [v],
    soundUrl := "sounds/bob.mp3", imageDataUrl := "data:bob" }

/-- A concrete identity with an empty embedding list (enrollment in
progress, not yet usable for matching). -/
def nobody : RegisteredPerson :=
  { id := "empty-0", name := "Nobody", descriptors := [],
    soundUrl := "", imageDataUrl := "" }

/-- A cooldown map in which only the identity `"ana-1"` has ever
triggered, at time `t0`. -/
def anaOnlyMap (t0 : ℤ) : CooldownMap :=
  fun s => if s = "ana-1" then some t0 else none

deriving instance DecidableEq for Except

/-- A sequence of `n` accepted capture attempts (each produces a
descriptor and a snapshot). -/
def okCaptures (n : ℕ) : List (Option (List ℚ) × Option String) :=
  List.replicate n (some [0], some "img")

/-! ## Lemmas about the match engine -/

theorem sqDist_nonneg (a b : List ℚ) : 0 ≤ sqDist a b := by
  unfold sqDist
  refine List.sum_nonneg ?_
  intro x hx
  obtain ⟨p, _, rfl⟩ := List.mem_map.mp hx
  positivity

theorem sqDist_self (a : List ℚ) : sqDist a a = 0 := by
  unfold sqDist
  induction a with
  | nil => simp
  | cons x xs ih =>
    simpa [List.zip_cons_cons] using ih

/-- Under length well-formedness, the `Except`-valued minimum-distance fold
never throws and computes its pure mirror. -/
theorem findBestMatchAux_ok (e : List ℚ) (ds : List (List ℚ)) (acc : Option ℚ)
    (h : ∀ d ∈ ds, d.length = e.length) :
    findBestMatchAux e ds acc = .ok (minDistSqAux e ds acc) := by
  induction ds generalizing acc with
  | nil => rfl
  | cons d rest ih =>
    have hd : d.length = e.length := h d (List.mem_cons_self _ _)
    have hrest : ∀ d' ∈ rest, d'.length = e.length := fun d' hd' => h d' (List.mem_cons_of_mem _ hd')
    simp only [findBestMatchAux, euclideanDistanceSq, hd.symm, if_pos rfl, minDistSqAux]
    exact ih _ hrest

theorem findBestMatch_ok (e : List ℚ) (p : RegisteredPerson) (h : wfPerson e p) :
    findBestMatch e p = .ok (minDistSq e p) :=
  findBestMatchAux_ok e p.descriptors none h

/-- Under gallery well-formedness, the `Except`-valued scan never throws
and computes its pure mirror. -/
theorem scanPeopleAux_ok (e : List ℚ) (tSq : ℚ) (ps : List RegisteredPerson)
    (best : Option (RegisteredPerson × ℚ)) (h : ∀ p ∈ ps, wfPerson e p) :
    scanPeopleAux e tSq ps best = .ok (scanPureAux e tSq ps best) := by
  induction ps generalizing best with
  | nil => rfl
  | cons p rest ih =>
    have hp : wfPerson e p := h p (List.mem_cons_self _ _)
    have hrest : ∀ q ∈ rest, wfPerson e q := fun q hq => h q (List.mem_cons_of_mem _ hq)
    simp only [scanPeopleAux, findBestMatch_ok e p hp, scanPureAux]
    exact ih _ hrest

theorem matchDetect_ok (e : List ℚ) (tSq : ℚ) (ps : List RegisteredPerson)
    (h : wfGallery e ps) :
    matchDetect e tSq ps = .ok (matchPure e tSq ps) :=
  scanPeopleAux_ok e tSq ps none h

/-- A person's minimum squared distance is `Infinity` exactly when the
descriptor list is empty. -/
theorem minDistSq_eq_none_iff (e : List ℚ) (p : RegisteredPerson) :
    minDistSq e p = none ↔ p.descriptors = [] := by
  unfold minDistSq
  constructor
  · intro h
    cases hd : p.descriptors with
    | nil => rfl
    | cons d rest =>
      exfalso
      rw [hd] at h
      have key : ∀ (ds : List (List ℚ)) (s : ℚ),
          minDistSqAux e ds (some s) ≠ none := by
        intro ds
        induction ds with
        | nil => intro s hs; exact Option.noConfusion hs
        | cons d' rest' ih =>
          intro s
          simp only [minDistSqAux]
          cases hlt : ltInf (sqDist e d') (some s) <;> simp [hlt] <;> exact ih _
      simp only [minDistSqAux, ltInf, if_pos rfl] at h
      exact key rest _ h
  · intro h; rw [h]; rfl

/-- Any finite minimum squared distance is a squared distance to one of the
stored descriptors, hence nonnegative. -/
theorem minDistSqAux_mem (e : List ℚ) (ds : List (List ℚ)) (acc : Option ℚ) (s : ℚ)
    (h : minDistSqAux e ds acc = some s) :
    acc = some s ∨ ∃ d ∈ ds, s = sqDist e d := by
  induction ds generalizing acc with
  | nil => exact Or.inl h
  | cons d rest ih =>
    simp only [minDistSqAux] at h
    rcases ih _ h with hacc | ⟨d', hd', rfl⟩
    · by_cases hlt : ltInf (sqDist e d) acc = true
      · rw [if_pos hlt] at hacc
        exact Or.inr ⟨d, List.mem_cons_self _ _, (Option.some.inj hacc).symm⟩
      · rw [if_neg hlt] at hacc
        exact Or.inl hacc
    · exact Or.inr ⟨d', List.mem_cons_of_mem _ hd', rfl⟩

theorem minDistSq_nonneg (e : List ℚ) (p : RegisteredPerson) (s : ℚ)
    (h : minDistSq e p = some s) : 0 ≤ s := by
  rcases minDistSqAux_mem e p.descriptors none s h with hacc | ⟨d, _, rfl⟩
  · exact absurd hacc (Option.noConfusion)
  · exact sqDist_nonneg e d

/-- Unfolding the scan one person at a time, when that person's minimum
squared distance is `Infinity`. -/
theorem scanPureAux_cons_none (e : List ℚ) (tSq : ℚ) (p : RegisteredPerson)
    (rest : List RegisteredPerson) (best : Option (RegisteredPerson × ℚ))
    (hm : minDistSq e p = none) :
    scanPureAux e tSq (p :: rest) best = scanPureAux e tSq rest best := by
  simp [scanPureAux, hm]

/-- Unfolding the scan one person at a time, when that person's minimum
squared distance is finite. -/
theorem scanPureAux_cons_some (e : List ℚ) (tSq : ℚ) (p : RegisteredPerson)
    (rest : List RegisteredPerson) (best : Option (RegisteredPerson × ℚ))
    (s : ℚ) (hm : minDistSq e p = some s) :
    scanPureAux e tSq (p :: rest) best =
      scanPureAux e tSq rest
        (if decide (s < tSq) && beats s best then some (p, s) else best) := by
  simp only [scanPureAux, hm]

/-- Once the scan holds a candidate, it keeps holding one, and the held
squared distance never increases. -/
theorem scanPureAux_mono (e : List ℚ) (tSq : ℚ) (ps : List RegisteredPerson)
    (b0 : RegisteredPerson × ℚ) :
    ∃ b, scanPureAux e tSq ps (some b0) = some b ∧ b.2 ≤ b0.2 := by
  induction ps generalizing b0 with
  | nil => exact ⟨b0, rfl, le_refl _⟩
  | cons p rest ih =>
    cases hm : minDistSq e p with
    | none =>
      rw [scanPureAux_cons_none e tSq p rest _ hm]
      exact ih b0
    | some s =>
      rw [scanPureAux_cons_some e tSq p rest _ s hm]
      by_cases hc : (decide (s < tSq) && beats s (some b0)) = true
      · rw [if_pos hc]
        obtain ⟨b, hb, hle⟩ := ih (p, s)
        have hs : s < b0.2 := by
          have := (Bool.and_eq_true _ _).mp hc
          exact of_decide_eq_true this.2
        exact ⟨b, hb, hle.trans hs.le⟩
      · rw [if_neg hc]
        exact ih b0

/-- The scan's result is either the initial candidate or a person from the
scanned list together with that person's minimum squared distance, which
is below the threshold. -/
theorem scanPureAux_origin (e : List ℚ) (tSq : ℚ) (ps : List RegisteredPerson)
    (best : Option (RegisteredPerson × ℚ)) :
    scanPureAux e tSq ps best = best ∨
      ∃ p ∈ ps, ∃ s, scanPureAux e tSq ps best = some (p, s) ∧
        minDistSq e p = some s ∧ s < tSq := by
  induction ps generalizing best with
  | nil => exact Or.inl rfl
  | cons p rest ih =>
    cases hm : minDistSq e p with
    | none =>
      rw [scanPureAux_cons_none e tSq p rest _ hm]
      rcases ih best with h | ⟨q, hq, s, hs⟩
      · exact Or.inl h
      · exact Or.inr ⟨q, List.mem_cons_of_mem _ hq, s, hs⟩
    | some s =>
      rw [scanPureAux_cons_some e tSq p rest _ s hm]
      by_cases hc : (decide (s < tSq) && beats s best) = true
      · rw [if_pos hc]
        have hst : s < tSq := of_decide_eq_true ((Bool.and_eq_true _ _).mp hc).1
        rcases ih (some (p, s)) with h | ⟨q, hq, s', hs'⟩
        · exact Or.inr ⟨p, List.mem_cons_self _ _, s, h, hm, hst⟩
        · exact Or.inr ⟨q, List.mem_cons_of_mem _ hq, s', hs'⟩
      · rw [if_neg hc]
        rcases ih best with h | ⟨q, hq, s', hs'⟩
        · exact Or.inl h
        · exact Or.inr ⟨q, List.mem_cons_of_mem _ hq, s', hs'⟩

/-- Dominance: whenever some scanned person's minimum squared distance is
below the threshold, the scan ends with a candidate at least as close. -/
theorem scanPureAux_dominates (e : List ℚ) (tSq : ℚ) (ps : List RegisteredPerson)
    (best : Option (RegisteredPerson × ℚ)) (q : RegisteredPerson) (s' : ℚ)
    (hq : q ∈ ps) (hm : minDistSq e q = some s') (hlt : s' < tSq) :
    ∃ b, scanPureAux e tSq ps best = some b ∧ b.2 ≤ s' := by
  induction ps generalizing best with
  | nil => exact absurd hq (List.not_mem_nil q)
  | cons p rest ih =>
    rcases List.mem_cons.mp hq with rfl | hq'
    · rw [scanPureAux_cons_some e tSq q rest _ s' hm]
      by_cases hc : (decide (s' < tSq) && beats s' best) = true
      · rw [if_pos hc]
        exact scanPureAux_mono e tSq rest (q, s')
      · rw [if_neg hc]
        have hbeats : beats s' best = false := by
          cases hbb : beats s' best
          · rfl
          · exact absurd (by rw [Bool.and_eq_true]; exact ⟨decide_eq_true hlt, hbb⟩) hc
        cases best with
        | none => simp [beats] at hbeats
        | some b0 =>
          have h2 : ¬ s' < b0.2 := by simpa [beats] using hbeats
          obtain ⟨b, hscan, hle⟩ := scanPureAux_mono e tSq rest b0
          exact ⟨b, hscan, hle.trans (not_lt.mp h2)⟩
    · cases hmp : minDistSq e p with
      | none =>
        rw [scanPureAux_cons_none e tSq p rest _ hmp]
        exact ih best hq'
      | some s =>
        rw [scanPureAux_cons_some e tSq p rest _ s hmp]
        exact ih _ hq'

/-- The matched person of the pure scan attains the globally smallest
minimum squared distance, below the threshold; when the scan is
unmatched, no person's minimum squared distance is below the threshold. -/
theorem matchPure_spec (e : List ℚ) (tSq : ℚ) (ps : List RegisteredPerson) :
    (∀ p s, matchPure e tSq ps = some (p, s) →
      p ∈ ps ∧ minDistSq e p = some s ∧ s < tSq ∧
        ∀ q ∈ ps, ∀ s', minDistSq e q = some s' → s ≤ s') ∧
    (matchPure e tSq ps = none →
      ∀ q ∈ ps, ∀ s', minDistSq e q = some s' → ¬ s' < tSq) := by
  constructor
  · intro p s hps
    have hscan : scanPureAux e tSq ps none = some (p, s) := hps
    rcases scanPureAux_origin e tSq ps none with h | ⟨p', hp', s', hs', hm', ht'⟩
    · rw [h] at hscan
      exact absurd hscan (Option.noConfusion)
    · rw [hscan] at hs'
      have hinj : (p, s) = (p', s') := Option.some.inj hs'
      have hp : p = p' := congrArg Prod.fst hinj
      have hs : s = s' := congrArg Prod.snd hinj
      subst hp
      subst hs
      refine ⟨hp', hm', ht', ?_⟩
      intro q hq sq hmq
      by_cases hlt : sq < tSq
      · obtain ⟨b, hb, hle⟩ := scanPureAux_dominates e tSq ps none q sq hq hmq hlt
        rw [hscan] at hb
        have hbps : b = (p, s) := (Option.some.inj hb).symm
        rw [hbps] at hle
        exact hle
      · exact le_of_lt (lt_of_lt_of_le ht' (not_lt.mp hlt))
  · intro hnone q hq s' hm' hlt
    have hscan : scanPureAux e tSq ps none = none := hnone
    obtain ⟨b, hb, _⟩ := scanPureAux_dominates e tSq ps none q s' hq hm' hlt
    rw [hscan] at hb
    exact Option.noConfusion hb

/-! ### Error propagation (length mismatch) -/

/-- If some descriptor in the list has a different length than the
detected embedding, the minimum-distance fold throws the library's
length-mismatch error. -/
theorem findBestMatchAux_error_of_mismatch (e : List ℚ) (ds : List (List ℚ)) :
    ∀ acc : Option ℚ, (∃ d ∈ ds, d.length ≠ e.length) →
      findBestMatchAux e ds acc = .error lengthMismatchError := by
  induction ds with
  | nil =>
    rintro acc ⟨d, hd, -⟩
    exact absurd hd (List.not_mem_nil d)
  | cons d0 rest ih =>
    rintro acc ⟨d, hd, hlen⟩
    by_cases h0 : d0.length = e.length
    · rcases List.mem_cons.mp hd with rfl | hd'
      · exact absurd h0 hlen
      · simp only [findBestMatchAux, euclideanDistanceSq, h0.symm, if_pos rfl]
        exact ih _ ⟨d, hd', hlen⟩
    · have : ¬ e.length = d0.length := fun hh => h0 hh.symm
      simp only [findBestMatchAux, euclideanDistanceSq, if_neg this]

/-- The minimum-distance fold either succeeds or throws the
length-mismatch error: no other failure exists. -/
theorem findBestMatchAux_ok_or_mismatch (e : List ℚ) (ds : List (List ℚ)) :
    ∀ acc : Option ℚ,
      (∃ v, findBestMatchAux e ds acc = .ok v) ∨
        findBestMatchAux e ds acc = .error lengthMismatchError := by
  induction ds with
  | nil => exact fun acc => Or.inl ⟨acc, rfl⟩
  | cons d0 rest ih =>
    intro acc
    by_cases h0 : e.length = d0.length
    · have hstep : findBestMatchAux e (d0 :: rest) acc =
          findBestMatchAux e rest
            (if ltInf (sqDist e d0) acc then some (sqDist e d0) else acc) := by
        simp only [findBestMatchAux, euclideanDistanceSq, if_pos h0]
      rw [hstep]
      exact ih _
    · have hstep : findBestMatchAux e (d0 :: rest) acc = .error lengthMismatchError := by
        simp only [findBestMatchAux, euclideanDistanceSq, if_neg h0]
      rw [hstep]
      exact Or.inr rfl

/-- A person with an empty descriptor list yields `Infinity` and never an
error (`useFaceDetection.ts:125`). -/
theorem findBestMatch_empty (e : List ℚ) (p : RegisteredPerson)
    (h : p.descriptors = []) : findBestMatch e p = .ok none := by
  simp [findBestMatch, h, findBestMatchAux]

/-- Scan unfolding when the head person's match computation throws. -/
theorem scanPeopleAux_cons_error (e : List ℚ) (tSq : ℚ) (x : RegisteredPerson)
    (rest : List RegisteredPerson) (best : Option (RegisteredPerson × ℚ))
    (msg : String) (hx : findBestMatch e x = .error msg) :
    scanPeopleAux e tSq (x :: rest) best = .error msg := by
  simp [scanPeopleAux, hx]

/-- Scan unfolding when the head person's minimum distance is `Infinity`:
the candidate is unchanged (`Infinity < 0.6` is false). -/
theorem scanPeopleAux_cons_ok_none (e : List ℚ) (tSq : ℚ) (x : RegisteredPerson)
    (rest : List RegisteredPerson) (best : Option (RegisteredPerson × ℚ))
    (hx : findBestMatch e x = .ok none) :
    scanPeopleAux e tSq (x :: rest) best = scanPeopleAux e tSq rest best := by
  simp [scanPeopleAux, hx]

/-- Scan unfolding when the head person's minimum distance is finite. -/
theorem scanPeopleAux_cons_ok_some (e : List ℚ) (tSq : ℚ) (x : RegisteredPerson)
    (rest : List RegisteredPerson) (best : Option (RegisteredPerson × ℚ))
    (s : ℚ) (hx : findBestMatch e x = .ok (some s)) :
    scanPeopleAux e tSq (x :: rest) best =
      scanPeopleAux e tSq rest
        (if decide (s < tSq) && beats s best then some (x, s) else best) := by
  simp only [scanPeopleAux, hx]

/-- If any registered person stores a descriptor whose length differs from
the detected embedding's, the whole match operation throws the
length-mismatch error. -/
theorem matchDetect_error_of_mismatch (e : List ℚ) (tSq : ℚ)
    (ps : List RegisteredPerson) (best : Option (RegisteredPerson × ℚ))
    (p : RegisteredPerson) (hp : p ∈ ps) (d : List ℚ) (hd : d ∈ p.descriptors)
    (hlen : d.length ≠ e.length) :
    scanPeopleAux e tSq ps best = .error lengthMismatchError := by
  induction ps generalizing best with
  | nil => exact absurd hp (List.not_mem_nil p)
  | cons q rest ih =>
    rcases List.mem_cons.mp hp with heq | hp'
    · refine scanPeopleAux_cons_error e tSq q rest best _ ?_
      rw [← heq]
      exact findBestMatchAux_error_of_mismatch e p.descriptors none ⟨d, hd, hlen⟩
    · rcases findBestMatchAux_ok_or_mismatch e q.descriptors none with ⟨v, hv⟩ | herr
      · cases v with
        | none =>
          rw [scanPeopleAux_cons_ok_none e tSq q rest best hv]
          exact ih _ hp'
        | some s =>
          rw [scanPeopleAux_cons_ok_some e tSq q rest best s hv]
          exact ih _ hp'
      · exact scanPeopleAux_cons_error e tSq q rest best _ herr

/-- A winner of the scan always has a nonempty descriptor list: an
identity with no stored embeddings can never be matched. -/
theorem scanPeopleAux_winner_nonempty (e : List ℚ) (tSq : ℚ)
    (ps : List RegisteredPerson) (best : Option (RegisteredPerson × ℚ))
    (b : RegisteredPerson × ℚ)
    (hbest : ∀ b0, best = some b0 → b0.1.descriptors ≠ [])
    (h : scanPeopleAux e tSq ps best = .ok (some b)) :
    b.1.descriptors ≠ [] := by
  induction ps generalizing best with
  | nil =>
    have : best = some b := Except.ok.inj h
    exact hbest b this
  | cons q rest ih =>
    rcases findBestMatchAux_ok_or_mismatch e q.descriptors none with ⟨v, hv⟩ | herr
    · cases v with
      | none =>
        rw [scanPeopleAux_cons_ok_none e tSq q rest best hv] at h
        exact ih _ hbest h
      | some s =>
        rw [scanPeopleAux_cons_ok_some e tSq q rest best s hv] at h
        refine ih _ ?_ h
        intro b0 hb0
        by_cases hc : (decide (s < tSq) && beats s best) = true
        · rw [if_pos hc] at hb0
          have hqb : (q, s) = b0 := Option.some.inj hb0
          intro hempty
          rw [← hqb] at hempty
          have hv' : findBestMatch e q = Except.ok (some s) := hv
          have : findBestMatch e q = .ok none := findBestMatch_empty e q hempty
          rw [this] at hv'
          exact Option.noConfusion (Except.ok.inj hv')
        · rw [if_neg hc] at hb0
          exact hbest b0 hb0
    · rw [scanPeopleAux_cons_error e tSq q rest best _ herr] at h
      exact Except.noConfusion h

/-- Inserting a person with an empty descriptor list anywhere in the
gallery leaves the scan's outcome unchanged. -/
theorem scanPeopleAux_skip_empty (e : List ℚ) (tSq : ℚ)
    (xs ys : List RegisteredPerson) (p0 : RegisteredPerson)
    (h0 : p0.descriptors = []) (best : Option (RegisteredPerson × ℚ)) :
    scanPeopleAux e tSq (xs ++ p0 :: ys) best = scanPeopleAux e tSq (xs ++ ys) best := by
  induction xs generalizing best with
  | nil =>
    rw [List.nil_append, List.nil_append,
      scanPeopleAux_cons_ok_none e tSq p0 ys best (findBestMatch_empty e p0 h0)]
  | cons x xs' ih =>
    rcases findBestMatchAux_ok_or_mismatch e x.descriptors none with ⟨v, hv⟩ | herr
    · cases v with
      | none =>
        rw [List.cons_append, List.cons_append,
          scanPeopleAux_cons_ok_none e tSq x (xs' ++ p0 :: ys) best hv,
          scanPeopleAux_cons_ok_none e tSq x (xs' ++ ys) best hv]
        exact ih _
      | some s =>
        rw [List.cons_append, List.cons_append,
          scanPeopleAux_cons_ok_some e tSq x (xs' ++ p0 :: ys) best s hv,
          scanPeopleAux_cons_ok_some e tSq x (xs' ++ ys) best s hv]
        exact ih _
    · rw [List.cons_append, List.cons_append,
        scanPeopleAux_cons_error e tSq x (xs' ++ p0 :: ys) best _ herr,
        scanPeopleAux_cons_error e tSq x (xs' ++ ys) best _ herr]

/-- The scan either succeeds or throws the length-mismatch error: the
match engine has no other failure mode. -/
theorem scanPeopleAux_ok_or_mismatch (e : List ℚ) (tSq : ℚ)
    (ps : List RegisteredPerson) :
    ∀ best : Option (RegisteredPerson × ℚ),
      (∃ v, scanPeopleAux e tSq ps best = .ok v) ∨
        scanPeopleAux e tSq ps best = .error lengthMismatchError := by
  induction ps with
  | nil => exact fun best => Or.inl ⟨best, rfl⟩
  | cons q rest ih =>
    intro best
    rcases findBestMatchAux_ok_or_mismatch e q.descriptors none with ⟨v, hv⟩ | herr
    · cases v with
      | none =>
        rw [scanPeopleAux_cons_ok_none e tSq q rest best hv]
        exact ih _
      | some s =>
        rw [scanPeopleAux_cons_ok_some e tSq q rest best s hv]
        exact ih _
    · rw [scanPeopleAux_cons_error e tSq q rest best _ herr]
      exact Or.inr rfl

/-- The minimum squared distance of a single-descriptor identity. -/
theorem minDistSq_single (e v : List ℚ) (p : RegisteredPerson)
    (h : p.descriptors = [v]) : minDistSq e p = some (sqDist e v) := by
  simp [minDistSq, h, minDistSqAux, ltInf]

/-- Comparisons of squared values transfer to the underlying nonnegative
reals: the actual L2 distance is below the actual threshold iff the
squared distance is below the squared threshold. -/
theorem sq_lt_transfer (s tSq : ℚ) (h : s < tSq) (d t : ℝ)
    (_hd : 0 ≤ d) (hds : d ^ 2 = (s : ℝ)) (ht : 0 ≤ t) (hts : t ^ 2 = (tSq : ℝ)) :
    d < t := by
  have hcast : (s : ℝ) < (tSq : ℝ) := by exact_mod_cast h
  have hpow : d ^ 2 < t ^ 2 := by rw [hds, hts]; exact hcast
  exact lt_of_pow_lt_pow_left₀ 2 ht hpow

/-! ### Lemmas about the global exclusivity gate -/

/-- While something is playing, a detection tick is a no-op and fires no
playback. -/
theorem simpleTick_playing (s : SimpleState) (f hm : Bool) (now : ℤ)
    (h : s.isPlaying = true) : simpleTick s f hm now = (s, false) := by
  simp [simpleTick, h]

/-- While something is playing, an arbitrary run of detection ticks fires
no playback and leaves the playing flag set. -/
theorem runTicks_playing (ins : List (Bool × Bool × ℤ)) :
    ∀ s : SimpleState, s.isPlaying = true →
      (runTicks s ins).2 = false ∧ (runTicks s ins).1 = s := by
  induction ins with
  | nil => exact fun s _ => ⟨rfl, rfl⟩
  | cons i rest ih =>
    rintro s h
    obtain ⟨f, hm, now⟩ := i
    simp only [runTicks, simpleTick_playing s f hm now h]
    obtain ⟨h1, h2⟩ := ih s h
    simp [h1, h2]

/-! ### Lemmas about the enrollment sequencer -/

/-- Counting accepted attempts, one event at a time. -/
theorem acceptedCount_cons (ev : Option (List ℚ) × Option String)
    (rest : List (Option (List ℚ) × Option String)) :
    acceptedCount (ev :: rest) =
      (if ev.1.isSome && ev.2.isSome then 1 else 0) + acceptedCount rest := by
  by_cases h : (ev.1.isSome && ev.2.isSome) = true
  · simp only [acceptedCount, List.filter, h, if_pos, List.length_cons]
    omega
  · simp only [acceptedCount, List.filter]
    rw [if_neg h]
    simp [Bool.eq_false_iff.mpr h]

/-- A rejected attempt (missing descriptor or snapshot) leaves the session
unchanged. -/
theorem handleCapture_rejected (s : EnrollState) (d : Option (List ℚ))
    (img : Option String) (h : ¬ (d.isSome && img.isSome) = true) :
    handleCapture s d img = s := by
  cases d with
  | none => rfl
  | some d0 =>
    cases img with
    | none => rfl
    | some i0 => simp at h

/-- An accepted attempt appends the sample and moves to `media` exactly
when the new count reaches `REQUIRED_CAPTURES`. -/
theorem handleCapture_accepted (s : EnrollState) (d0 : List ℚ) (i0 : String) :
    handleCapture s (some d0) (some i0) =
      ⟨if REQUIRED_CAPTURES ≤ s.capturedDescriptors.length + 1 then .media else s.step,
        s.capturedDescriptors ++ [d0], s.capturedImages ++ [i0]⟩ := by
  simp only [handleCapture, List.length_append, List.length_singleton]

/-- A run with no accepted attempt leaves the session unchanged. -/
theorem runCaptures_noop (evs : List (Option (List ℚ) × Option String)) :
    ∀ s : EnrollState, acceptedCount evs = 0 → runCaptures s evs = s := by
  induction evs with
  | nil => exact fun s _ => rfl
  | cons ev rest ih =>
    intro s h
    rw [acceptedCount_cons] at h
    by_cases hacc : (ev.1.isSome && ev.2.isSome) = true
    · rw [if_pos hacc] at h
      omega
    · rw [if_neg hacc, Nat.zero_add] at h
      obtain ⟨d, img⟩ := ev
      have hstep : handleCapture s d img = s := handleCapture_rejected s d img hacc
      calc runCaptures s ((d, img) :: rest)
          = runCaptures (handleCapture s d img) rest := rfl
        _ = runCaptures s rest := by rw [hstep]
        _ = s := ih s h

/-- Invariant run of the capture loop: starting in the capture step with
fewer than `REQUIRED_CAPTURES` samples and a bounded number of accepted
attempts, the sample counts advance by exactly the accepted count, and the
session is in the `media` step exactly when the total reaches
`REQUIRED_CAPTURES`. -/
theorem runCaptures_spec (evs : List (Option (List ℚ) × Option String)) :
    ∀ s : EnrollState, s.step = .capture →
      s.capturedDescriptors.length < REQUIRED_CAPTURES →
      s.capturedImages.length = s.capturedDescriptors.length →
      s.capturedDescriptors.length + acceptedCount evs ≤ REQUIRED_CAPTURES →
      (runCaptures s evs).capturedDescriptors.length
          = s.capturedDescriptors.length + acceptedCount evs ∧
      (runCaptures s evs).capturedImages.length
          = s.capturedDescriptors.length + acceptedCount evs ∧
      ((runCaptures s evs).step = .media ↔
          s.capturedDescriptors.length + acceptedCount evs = REQUIRED_CAPTURES) ∧
      ((runCaptures s evs).step = .media ∨ (runCaptures s evs).step = .capture) := by
  induction evs with
  | nil =>
    intro s hstep hlt himg _
    have hrun : runCaptures s [] = s := rfl
    rw [hrun]
    refine ⟨by simp [acceptedCount], by simp [acceptedCount, himg], ?_, Or.inr hstep⟩
    constructor
    · intro hmedia
      rw [hstep] at hmedia
      exact absurd hmedia (by simp)
    · intro habs
      simp only [acceptedCount, List.filter_nil, List.length_nil, Nat.add_zero] at habs
      omega
  | cons ev rest ih =>
    intro s hstep hlt himg hbound
    obtain ⟨d, img⟩ := ev
    rw [acceptedCount_cons] at hbound ⊢
    have hrun : runCaptures s ((d, img) :: rest)
        = runCaptures (handleCapture s d img) rest := rfl
    by_cases hacc : ((d, img).1.isSome && (d, img).2.isSome) = true
    · obtain ⟨d0, rfl⟩ : ∃ d0, d = some d0 := by
        cases d with
        | none => simp at hacc
        | some d0 => exact ⟨d0, rfl⟩
      obtain ⟨i0, rfl⟩ : ∃ i0, img = some i0 := by
        cases img with
        | none => simp at hacc
        | some i0 => exact ⟨i0, rfl⟩
      rw [if_pos hacc] at hbound ⊢
      by_cases hfull : REQUIRED_CAPTURES ≤ s.capturedDescriptors.length + 1
      · have hrest : acceptedCount rest = 0 := by omega
        have hcap : handleCapture s (some d0) (some i0) =
            ⟨.media, s.capturedDescriptors ++ [d0], s.capturedImages ++ [i0]⟩ := by
          rw [handleCapture_accepted, if_pos hfull]
        rw [hrun, hcap, runCaptures_noop rest _ hrest]
        refine ⟨?_, ?_, ?_, Or.inl rfl⟩
        · show (s.capturedDescriptors ++ [d0]).length = _
          simp only [List.length_append, List.length_singleton]
          omega
        · show (s.capturedImages ++ [i0]).length = _
          simp only [List.length_append, List.length_singleton]
          omega
        · constructor
          · intro _
            omega
          · intro _
            rfl
      · have hcap : handleCapture s (some d0) (some i0) =
            ⟨.capture, s.capturedDescriptors ++ [d0], s.capturedImages ++ [i0]⟩ := by
          rw [handleCapture_accepted, if_neg hfull, hstep]
        rw [hrun, hcap]
        have hlen1 : (s.capturedDescriptors ++ [d0]).length
            = s.capturedDescriptors.length + 1 := by
          simp only [List.length_append, List.length_singleton]
        have hlen2 : (s.capturedImages ++ [i0]).length
            = s.capturedDescriptors.length + 1 := by
          simp only [List.length_append, List.length_singleton]
          omega
        have ih' := ih ⟨.capture, s.capturedDescriptors ++ [d0], s.capturedImages ++ [i0]⟩
          rfl (by rw [show (⟨.capture, s.capturedDescriptors ++ [d0], s.capturedImages ++ [i0]⟩ :
              EnrollState).capturedDescriptors = s.capturedDescriptors ++ [d0] from rfl, hlen1]; omega)
          (by show (s.capturedImages ++ [i0]).length = (s.capturedDescriptors ++ [d0]).length
              rw [hlen1, hlen2])
          (by show (s.capturedDescriptors ++ [d0]).length + acceptedCount rest ≤ _
              rw [hlen1]; omega)
        obtain ⟨h1, h2, h3, h4⟩ := ih'
        have h1' : (⟨.capture, s.capturedDescriptors ++ [d0], s.capturedImages ++ [i0]⟩ :
            EnrollState).capturedDescriptors.length = s.capturedDescriptors.length + 1 := hlen1
        refine ⟨?_, ?_, ?_, h4⟩
        · rw [h1, h1']
          omega
        · rw [h2, h1']
          omega
        · rw [h3, h1']
          constructor
          · intro h5
            omega
          · intro h5
            omega
    · rw [if_neg hacc, Nat.zero_add] at hbound ⊢
      rw [hrun, handleCapture_rejected s d img hacc]
      exact ih s hstep hlt himg hbound

/-- The match outcome on a single-identity gallery with a single stored
embedding. -/
theorem matchDetect_single (e v : List ℚ) (tSq : ℚ) (p : RegisteredPerson)
    (hdesc : p.descriptors = [v]) (hlen : v.length = e.length) :
    matchDetect e tSq [p] =
      .ok (if sqDist e v < tSq then some (p, sqDist e v) else none) := by
  have hwf : wfGallery e [p] := by
    intro q hq
    rw [List.mem_singleton] at hq
    subst hq
    intro d hd
    rw [hdesc, List.mem_singleton] at hd
    subst hd
    exact hlen
  rw [matchDetect_ok e tSq [p] hwf]
  have hm := minDistSq_single e v p hdesc
  have hpure : matchPure e tSq [p] =
      if sqDist e v < tSq then some (p, sqDist e v) else none := by
    show scanPureAux e tSq [p] none = _
    rw [show ([p] : List RegisteredPerson) = p :: [] from rfl,
      scanPureAux_cons_some e tSq p [] none (sqDist e v) hm]
    by_cases hlt : sqDist e v < tSq
    · rw [if_pos hlt]
      have hcond : (decide (sqDist e v < tSq) && beats (sqDist e v) none) = true := by
        rw [Bool.and_eq_true]
        exact ⟨decide_eq_true hlt, rfl⟩
      rw [if_pos hcond]
      rfl
    · rw [if_neg hlt]
      have hcond : ¬ (decide (sqDist e v < tSq) && beats (sqDist e v) none) = true := by
        rw [Bool.and_eq_true]
        rintro ⟨h1, -⟩
        exact hlt (of_decide_eq_true h1)
      rw [if_neg hcond]
      rfl
  rw [hpure]

/-! ## The claims -/

/-- C1: for every detected embedding `e`, gallery `G` and threshold, the
match operation selects the identity whose minimum distance to `e` over
its stored embeddings is globally smallest among all identities, and the
detection is matched exactly when that smallest minimum distance is
strictly below the threshold: if matched, the returned (squared) distance
is below the (squared) threshold — equivalently the actual L2 distance is
below the actual threshold — and if unmatched no identity's minimum
distance was below it; an empty gallery is always unmatched. -/
theorem claim_C1_match_acceptance (e : List ℚ) (tSq : ℚ)
    (G : List RegisteredPerson) (hwf : wfGallery e G) :
    (∀ p s, matchDetect e tSq G = .ok (some (p, s)) →
        p ∈ G ∧ minDistSq e p = some s ∧ s < tSq ∧
        (∀ q ∈ G, ∀ s', minDistSq e q = some s' → s ≤ s') ∧
        (∀ d t : ℝ, 0 ≤ d → d ^ 2 = (s : ℝ) → 0 ≤ t → t ^ 2 = (tSq : ℝ) → d < t)) ∧
    (matchDetect e tSq G = .ok none →
        ∀ q ∈ G, ∀ s', minDistSq e q = some s' → ¬ s' < tSq) ∧
    (G = [] → matchDetect e tSq G = .ok none) := by
  have hok := matchDetect_ok e tSq G hwf
  obtain ⟨hsome, hnone⟩ := matchPure_spec e tSq G
  refine ⟨?_, ?_, ?_⟩
  · intro p s hm
    rw [hok] at hm
    have hpure : matchPure e tSq G = some (p, s) := Except.ok.inj hm
    obtain ⟨h1, h2, h3, h4⟩ := hsome p s hpure
    exact ⟨h1, h2, h3, h4,
      fun d t hd hds ht hts => sq_lt_transfer s tSq h3 d t hd hds ht hts⟩
  · intro hm q hq s' hms' hlt
    rw [hok] at hm
    exact hnone (Except.ok.inj hm) q hq s' hms' hlt
  · rintro rfl
    rfl

/-- Witness for C1: on the concrete gallery `[Ana ↦ [0], Bob ↦ [1]]` and
detected embedding `[0]`, the match operation is exercised at a fully
concrete input, discharging the well-formedness hypothesis. -/
theorem claim_C1_match_acceptance_witness :
    anaWith [0] ∈ [anaWith [0]] ∧
    minDistSq [0] (anaWith [0]) = some 0 ∧ (0 : ℚ) < 36/100 ∧
    (∀ q ∈ [anaWith [0]], ∀ s', minDistSq [0] q = some s' → (0 : ℚ) ≤ s') ∧
    (∀ d t : ℝ, 0 ≤ d → d ^ 2 = ((0 : ℚ) : ℝ) → 0 ≤ t →
      t ^ 2 = ((36/100 : ℚ) : ℝ) → d < t) :=
  (claim_C1_match_acceptance [0] (36/100) [anaWith [0]]
    (by decide)).1 (anaWith [0]) 0 (by
      rw [matchDetect_single [0] [0] (36/100) (anaWith [0]) rfl rfl, sqDist_self,
        if_pos (by norm_num : (0 : ℚ) < 36/100)])

/-- C5: an identity whose stored embedding list is empty yields
`Infinity` (never an error), never wins a match, and its presence in the
gallery never changes the result for the other identities. -/
theorem claim_C5_empty_identity (e : List ℚ) (tSq : ℚ) (p0 : RegisteredPerson)
    (h0 : p0.descriptors = []) :
    findBestMatch e p0 = .ok none ∧
    (∀ G1 G2 : List RegisteredPerson,
        matchDetect e tSq (G1 ++ p0 :: G2) = matchDetect e tSq (G1 ++ G2)) ∧
    (∀ G : List RegisteredPerson, ∀ b, matchDetect e tSq G = .ok (some b) →
        b.1 ≠ p0) := by
  refine ⟨findBestMatch_empty e p0 h0, ?_, ?_⟩
  · intro G1 G2
    exact scanPeopleAux_skip_empty e tSq G1 G2 p0 h0 none
  · intro G b hm hbp
    have hne := scanPeopleAux_winner_nonempty e tSq G none b
      (fun b0 hb0 => Option.noConfusion hb0) hm
    rw [hbp, h0] at hne
    exact hne rfl

/-- Witness for C5: the empty-descriptor identity `nobody` placed next to
a concrete `Ana` neither errors nor changes the outcome. -/
theorem claim_C5_empty_identity_witness :
    findBestMatch [0] nobody = .ok none ∧
    matchDetect [0] (36/100) ([anaWith [0]] ++ nobody :: []) =
      matchDetect [0] (36/100) ([anaWith [0]] ++ []) := by
  have h := claim_C5_empty_identity [0] (36/100) nobody (by decide)
  exact ⟨h.1, h.2.1 [anaWith [0]] []⟩

/-- C7: if any stored descriptor's length differs from the detected
embedding's length, the match operation signals the library's
invalid-input error instead of silently producing a result; under length
well-formedness it always succeeds, and the length mismatch is the only
error it can produce. -/
theorem claim_C7_length_mismatch (e : List ℚ) (tSq : ℚ)
    (G : List RegisteredPerson) :
    (∀ p ∈ G, ∀ d ∈ p.descriptors, d.length ≠ e.length →
        matchDetect e tSq G = .error lengthMismatchError) ∧
    (wfGallery e G → ∃ v, matchDetect e tSq G = .ok v) ∧
    (∀ msg, matchDetect e tSq G = .error msg → msg = lengthMismatchError) := by
  refine ⟨?_, ?_, ?_⟩
  · intro p hp d hd hlen
    exact matchDetect_error_of_mismatch e tSq G none p hp d hd hlen
  · intro hwf
    exact ⟨matchPure e tSq G, matchDetect_ok e tSq G hwf⟩
  · intro msg hmsg
    rcases scanPeopleAux_ok_or_mismatch e tSq G none with ⟨v, hv⟩ | herr
    · have hok : matchDetect e tSq G = .ok v := hv
      rw [hok] at hmsg
      exact Except.noConfusion hmsg
    · have herr' : matchDetect e tSq G = .error lengthMismatchError := herr
      rw [herr'] at hmsg
      exact (Except.error.inj hmsg).symm

/-- Witness for C7: a detected embedding of length 1 against a stored
descriptor of length 2 makes the match operation throw the invalid-input
error. -/
theorem claim_C7_length_mismatch_witness :
    matchDetect [0] (36/100) [anaWith [0, 0]] = .error lengthMismatchError :=
  (claim_C7_length_mismatch [0] (36/100) [anaWith [0, 0]]).1 (anaWith [0, 0])
    (by decide) [0, 0] (by decide) (by decide)

/-- C6: for every matched detection the reported confidence equals
`(1 - distance) * 100` (rendered through `confidenceSpec`, where the
distance is the nonnegative real whose square is the tracked squared
distance) and lies within `[0, 100]`; a detected embedding identical to
the stored one matches at distance `0` with confidence `100`; a detection
at L2 distance `0.8` (squared: `0.64`) under threshold `0.6` is
unmatched. -/
theorem claim_C6_confidence :
    (∀ e G p s, wfGallery e G →
        matchDetect e matchThresholdSq G = .ok (some (p, s)) →
        0 ≤ s ∧ s < matchThresholdSq ∧
        (∃ c : ℝ, confidenceSpec (some s) c) ∧
        (∀ c : ℝ, confidenceSpec (some s) c → 0 ≤ c ∧ c ≤ 100)) ∧
    (∀ v : List ℚ, ∀ p : RegisteredPerson, p.descriptors = [v] →
        matchDetect v matchThresholdSq [p] = .ok (some (p, 0)) ∧
        (∀ c : ℝ, confidenceSpec (some 0) c → c = 100)) ∧
    (∀ e v : List ℚ, ∀ p : RegisteredPerson, p.descriptors = [v] →
        v.length = e.length → sqDist e v = 64/100 →
        matchDetect e matchThresholdSq [p] = .ok none) := by
  refine ⟨?_, ?_, ?_⟩
  · intro e G p s hwf hm
    have hok := matchDetect_ok e matchThresholdSq G hwf
    rw [hok] at hm
    obtain ⟨hsome, -⟩ := matchPure_spec e matchThresholdSq G
    obtain ⟨-, hmin, hlt, -⟩ := hsome p s (Except.ok.inj hm)
    have hs0 : 0 ≤ s := minDistSq_nonneg e p s hmin
    have hs0' : (0 : ℝ) ≤ (s : ℝ) := by exact_mod_cast hs0
    refine ⟨hs0, hlt, ?_, ?_⟩
    · exact ⟨(1 - Real.sqrt s) * 100, Real.sqrt s, Real.sqrt_nonneg _,
        Real.sq_sqrt hs0', rfl⟩
    · rintro c ⟨d, hd0, hd2, rfl⟩
      have hdlt : d < 6/10 := sq_lt_transfer s matchThresholdSq hlt d (6/10)
        hd0 hd2 (by norm_num) (by rw [matchThresholdSq]; push_cast; norm_num)
      constructor
      · nlinarith
      · nlinarith
  · intro v p hdesc
    constructor
    · rw [matchDetect_single v v matchThresholdSq p hdesc rfl, sqDist_self,
        if_pos (by rw [matchThresholdSq]; norm_num : (0 : ℚ) < matchThresholdSq)]
    · rintro c ⟨d, hd0, hd2, rfl⟩
      have hd : d = 0 := by
        have : d ^ 2 = 0 := by rw [hd2]; norm_num
        exact pow_eq_zero_iff (by norm_num) |>.mp this
      rw [hd]
      norm_num
  · intro e v p hdesc hlen hsq
    rw [matchDetect_single e v matchThresholdSq p hdesc hlen, hsq,
      if_neg (by rw [matchThresholdSq]; norm_num : ¬ (64/100 : ℚ) < matchThresholdSq)]

/-- Witness for C6: the all-zero stored embedding matched against itself
(distance `0`, confidence `100`), and a detection at L2 distance `0.8`
(embedding `[4/5]` against stored `[0]`) left unmatched. -/
theorem claim_C6_confidence_witness :
    (matchDetect [0, 0] matchThresholdSq [anaWith [0, 0]] =
        .ok (some (anaWith [0, 0], 0)) ∧
      (∀ c : ℝ, confidenceSpec (some 0) c → c = 100)) ∧
    matchDetect [4/5] matchThresholdSq [anaWith [0]] = .ok none :=
  ⟨claim_C6_confidence.2.1 [0, 0] (anaWith [0, 0]) rfl,
   claim_C6_confidence.2.2 [4/5] [0] (anaWith [0]) rfl rfl
     (by norm_num [sqDist])⟩

/-- The trigger decision of the cooldown step, as a boolean function of
the elapsed time. -/
theorem cooldownStep_snd (mm : CooldownMap) (pid : String) (now : ℤ) :
    (cooldownStep mm pid now).2 = decide (now - getLast mm pid > 30000) := by
  unfold cooldownStep
  by_cases hc : now - getLast mm pid > 30000
  · rw [if_pos hc]
    exact (decide_eq_true hc).symm
  · rw [if_neg hc]
    exact (decide_eq_false hc).symm

/-- C2: with identity `I` last triggered at `t0`, a detection of `I` at
time `t` triggers playback iff `t - t0 > 30000`: never within
`(t0, t0 + 30000]`, always after `t0 + 30000`; triggering one identity
does not affect whether a different identity triggers; and inside a full
detection tick the cooldown step is applied exactly to the matched
identity. -/
theorem claim_C2_per_identity_cooldown (m : CooldownMap) (I : String)
    (t0 t : ℤ) (h : m I = some t0) :
    ((cooldownStep m I t).2 = true ↔ t - t0 > 30000) ∧
    (t0 < t → t ≤ t0 + 30000 → (cooldownStep m I t).2 = false) ∧
    (t0 + 30000 < t → (cooldownStep m I t).2 = true) ∧
    (∀ J t1 t2, J ≠ I →
        (cooldownStep ((cooldownStep m I t1).1) J t2).2 =
          (cooldownStep m J t2).2) ∧
    (∀ people e box p s now,
        matchDetect e matchThresholdSq people = .ok (some (p, s)) →
        detectTick people e box m now =
          .ok (mkResult (some (p, s)) box, cooldownStep m p.id now)) := by
  have hg : getLast m I = t0 := by rw [getLast, h]; rfl
  have key : ∀ tt : ℤ, (cooldownStep m I tt).2 = true ↔ tt - t0 > 30000 := by
    intro tt
    unfold cooldownStep
    rw [hg]
    by_cases hc : tt - t0 > 30000
    · rw [if_pos hc]
      simpa using hc
    · rw [if_neg hc]
      simpa using hc
  refine ⟨key t, ?_, ?_, ?_, ?_⟩
  · intro h1 h2
    cases hb : (cooldownStep m I t).2
    · rfl
    · exact absurd ((key t).mp hb) (by omega)
  · intro h1
    exact (key t).mpr (by omega)
  · intro J t1 t2 hJ
    have hupd : ((cooldownStep m I t1).1) J = m J := by
      unfold cooldownStep
      by_cases hc : t1 - getLast m I > 30000
      · rw [if_pos hc]
        show (if J = I then some t1 else m J) = m J
        rw [if_neg hJ]
      · rw [if_neg hc]
    have hgl : getLast ((cooldownStep m I t1).1) J = getLast m J := by
      rw [getLast, getLast, hupd]
    rw [cooldownStep_snd, cooldownStep_snd, hgl]
  · intro people e box p s now hm
    unfold detectTick
    rw [hm]

/-- Witness for C2: "Ana" triggered at `t0 = 0` with a 30000 ms window
does not re-trigger at `t = 29999` and does re-trigger at `t = 30001`. -/
theorem claim_C2_per_identity_cooldown_witness :
    (cooldownStep (anaOnlyMap 0) "ana-1" 29999).2 = false ∧
    (cooldownStep (anaOnlyMap 0) "ana-1" 30001).2 = true :=
  ⟨(claim_C2_per_identity_cooldown (anaOnlyMap 0) "ana-1" 0 29999
      (by decide)).2.1 (by decide) (by decide),
   (claim_C2_per_identity_cooldown (anaOnlyMap 0) "ana-1" 0 30001
      (by decide)).2.2.1 (by decide)⟩

/-- C3: once playback is triggered under the global gate (the playing
flag is set), no run of detection ticks fires a second playback, for any
inputs, until `resetPlayingState` clears the flag; and a trigger requires
that the flag is clear and that more than the 30000 ms global cooldown has
elapsed since the last trigger. -/
theorem claim_C3_global_exclusivity (s : SimpleState)
    (ins : List (Bool × Bool × ℤ)) (f hm : Bool) (now : ℤ) :
    (s.isPlaying = true →
        (runTicks s ins).2 = false ∧ (runTicks s ins).1.isPlaying = true) ∧
    ((simpleTick s f hm now).2 = true →
        s.isPlaying = false ∧ now - s.lastPlayed > 30000 ∧
        (simpleTick s f hm now).1.isPlaying = true ∧
        (simpleTick s f hm now).1.lastPlayed = now) ∧
    (resetPlayingState s).isPlaying = false := by
  refine ⟨?_, ?_, rfl⟩
  · intro h
    obtain ⟨h1, h2⟩ := runTicks_playing ins s h
    exact ⟨h1, by rw [h2]; exact h⟩
  · intro htrig
    unfold simpleTick at htrig ⊢
    by_cases hcond : (f && hm && !s.isPlaying) = true
    · rw [if_pos hcond] at htrig ⊢
      by_cases hcd : now - s.lastPlayed > 30000
      · rw [if_pos hcd] at htrig ⊢
        have hplay : s.isPlaying = false := by
          have hnot := ((Bool.and_eq_true _ _).mp hcond).2
          cases hsp : s.isPlaying
          · rfl
          · rw [hsp] at hnot
            exact absurd hnot (by decide)
        exact ⟨hplay, hcd, rfl, rfl⟩
      · rw [if_neg hcd] at htrig
        simp at htrig
    · rw [if_neg hcond] at htrig
      simp at htrig

/-- Witness for C3: with the playing flag set, a concrete tick sequence
fires nothing; a concrete trigger at `now = 40000` from the initial state
required the flag clear and the cooldown elapsed. -/
theorem claim_C3_global_exclusivity_witness :
    ((runTicks ⟨0, true⟩ [(true, true, 999999)]).2 = false ∧
        (runTicks ⟨0, true⟩ [(true, true, 999999)]).1.isPlaying = true) ∧
    ((SimpleState.mk 0 false).isPlaying = false ∧
        (40000 : ℤ) - (SimpleState.mk 0 false).lastPlayed > 30000 ∧
        (simpleTick ⟨0, false⟩ true true 40000).1.isPlaying = true ∧
        (simpleTick ⟨0, false⟩ true true 40000).1.lastPlayed = 40000) :=
  ⟨(claim_C3_global_exclusivity ⟨0, true⟩ [(true, true, 999999)]
      true true 0).1 rfl,
   (claim_C3_global_exclusivity ⟨0, false⟩ [] true true 40000).2.1
      (by decide)⟩

/-- C4: starting a capture session, the session transitions to its
complete (`media`) state iff exactly `REQUIRED_CAPTURES = 5` accepted
capture events have occurred; with fewer it stays in the capture step; and
cancelling the session performs no gallery mutation (no partial identity
is ever committed). -/
theorem claim_C4_enrollment (evs : List (Option (List ℚ) × Option String))
    (hbound : acceptedCount evs ≤ REQUIRED_CAPTURES) :
    (runCaptures initEnroll evs).capturedDescriptors.length = acceptedCount evs ∧
    (runCaptures initEnroll evs).capturedImages.length = acceptedCount evs ∧
    ((runCaptures initEnroll evs).step = .media ↔
        acceptedCount evs = REQUIRED_CAPTURES) ∧
    ((runCaptures initEnroll evs).step ≠ .media →
        (runCaptures initEnroll evs).step = .capture) ∧
    (∀ g : List RegisteredPerson, cancelEnrollment g = g) := by
  have h := runCaptures_spec evs initEnroll rfl (by decide) rfl
    (by simpa [initEnroll] using hbound)
  obtain ⟨h1, h2, h3, h4⟩ := h
  refine ⟨by simpa [initEnroll] using h1, by simpa [initEnroll] using h2,
    by simpa [initEnroll] using h3, ?_, fun g => rfl⟩
  intro hne
  rcases h4 with hmedia | hcap
  · exact absurd hmedia hne
  · exact hcap

/-- Witness for C4: five accepted captures complete the session; four do
not. -/
theorem claim_C4_enrollment_witness :
    ((runCaptures initEnroll (okCaptures 5)).step = .media ↔
        acceptedCount (okCaptures 5) = REQUIRED_CAPTURES) ∧
    ((runCaptures initEnroll (okCaptures 4)).step = .media ↔
        acceptedCount (okCaptures 4) = REQUIRED_CAPTURES) :=
  ⟨(claim_C4_enrollment (okCaptures 5) (by decide)).2.2.1,
   (claim_C4_enrollment (okCaptures 4) (by decide)).2.2.1⟩

/-- C8: the match computation is pure: the `DetectionResult` produced for
one detection is the same function of the gallery, the detected embedding
and the bounding box, no matter the cooldown state or the clock, so two
invocations on the same inputs yield identical results. -/
theorem claim_C8_match_purity (people : List RegisteredPerson) (e : List ℚ)
    (box : Box) (last last' : CooldownMap) (now now' : ℤ) :
    Except.map Prod.fst (detectTick people e box last now) =
      Except.map Prod.fst (detectTick people e box last' now') := by
  unfold detectTick
  cases hm : matchDetect e matchThresholdSq people with
  | error msg => rfl
  | ok best => rfl

/-- C9: `updatePersonSound` changes only the sound fields of the
people whose id matches, rewrites those to the given values, leaves every
other person and every other field untouched, preserves length and order,
and is the identity when no id matches. -/
theorem claim_C9_updatePersonSound_frame (people : List RegisteredPerson)
    (pid soundUrl : String) (soundData : Option String) :
    (updatePersonSound people pid soundUrl soundData).length = people.length ∧
    (∀ i : ℕ, ∀ p, people[i]? = some p →
      (p.id ≠ pid → (updatePersonSound people pid soundUrl soundData)[i]? = some p) ∧
      (p.id = pid → (updatePersonSound people pid soundUrl soundData)[i]? =
          some { p with soundUrl := soundUrl, soundData := soundData })) ∧
    (∀ i : ℕ, ∀ p q, people[i]? = some p →
      (updatePersonSound people pid soundUrl soundData)[i]? = some q →
      q.id = p.id ∧ q.name = p.name ∧ q.descriptors = p.descriptors ∧
      q.videoData = p.videoData ∧ q.imageDataUrl = p.imageDataUrl ∧
      q.createdAt = p.createdAt) ∧
    ((∀ p ∈ people, p.id ≠ pid) →
      updatePersonSound people pid soundUrl soundData = people) := by
  have hmap : ∀ i : ℕ, (updatePersonSound people pid soundUrl soundData)[i]? =
      (people[i]?).map (fun p =>
        if p.id = pid then { p with soundUrl := soundUrl, soundData := soundData }
        else p) := by
    intro i
    unfold updatePersonSound
    exact List.getElem?_map _ people i
  refine ⟨List.length_map _ _, ?_, ?_, ?_⟩
  · intro i p hp
    rw [hmap i, hp]
    constructor
    · intro hne
      rw [Option.map_some', if_neg hne]
    · intro heq
      rw [Option.map_some', if_pos heq]
  · intro i p q hp hq
    rw [hmap i, hp, Option.map_some'] at hq
    have hpq := Option.some.inj hq
    by_cases hid : p.id = pid
    · rw [if_pos hid] at hpq
      rw [← hpq]
      exact ⟨rfl, rfl, rfl, rfl, rfl, rfl⟩
    · rw [if_neg hid] at hpq
      rw [← hpq]
      exact ⟨rfl, rfl, rfl, rfl, rfl, rfl⟩
  · intro hno
    have hcongr : people.map (fun p =>
        if p.id = pid then { p with soundUrl := soundUrl, soundData := soundData }
        else p) = people.map id := by
      refine List.map_congr_left ?_
      intro a ha
      rw [if_neg (hno a ha)]
      rfl
    show people.map _ = people
    rw [hcongr, List.map_id]

/-- Witness for C9: updating "ana-1" in a two-person gallery touches only
Ana's sound fields and leaves Bob's entry untouched. -/
theorem claim_C9_updatePersonSound_frame_witness :
    (updatePersonSound [anaWith [0], bobWith [1]] "ana-1" "u" (some "d")).length
        = 2 ∧
    (updatePersonSound [anaWith [0], bobWith [1]] "ana-1" "u" (some "d"))[1]?
        = some (bobWith [1]) := by
  have h := claim_C9_updatePersonSound_frame [anaWith [0], bobWith [1]]
    "ana-1" "u" (some "d")
  refine ⟨by rw [h.1]; rfl, ?_⟩
  exact (h.2.1 1 (bobWith [1]) rfl).1 (by decide)

/-- C10: an unmatched detection (including against the empty gallery)
produces a result with null person id, null person name and confidence
exactly 0, while still carrying the detection's bounding box; no playback
fires and the cooldown state is untouched. -/
theorem claim_C10_unmatched_shape (people : List RegisteredPerson)
    (e : List ℚ) (box : Box) (last : CooldownMap) (now : ℤ)
    (h : matchDetect e matchThresholdSq people = .ok none) :
    detectTick people e box last now =
      .ok ({ personId := none, personName := none, matchedDistSq := none,
             box := box }, (last, false)) ∧
    (∀ c : ℝ, confidenceSpec none c ↔ c = 0) ∧
    matchDetect e matchThresholdSq [] = .ok none := by
  refine ⟨?_, fun c => Iff.rfl, rfl⟩
  unfold detectTick
  rw [h]
  rfl

/-- Witness for C10: a detection at squared distance 1 from the single
stored embedding is unmatched and gets the null/zero-confidence result
with its bounding box preserved. -/
theorem claim_C10_unmatched_shape_witness :
    detectTick [anaWith [0]] [1] { x := 3, y := 4, width := 5, height := 6 }
        (anaOnlyMap 0) 7 =
      .ok ({ personId := none, personName := none, matchedDistSq := none,
             box := { x := 3, y := 4, width := 5, height := 6 } },
           (anaOnlyMap 0, false)) :=
  (claim_C10_unmatched_shape [anaWith [0]] [1]
    { x := 3, y := 4, width := 5, height := 6 } (anaOnlyMap 0) 7
    (by
      rw [matchDetect_single [1] [0] matchThresholdSq (anaWith [0]) rfl rfl,
        if_neg (by rw [show sqDist [1] [0] = 1 from by norm_num [sqDist],
          matchThresholdSq]; norm_num)])).1

end FaceSoundTrainer
